import Mathlib

/-!
Formal model of the `onthefile` retrieval-augmented answering service.

The definitions below are shallow embeddings of the TypeScript sources:
* `src/lib/chunking.ts`        — `Chunk`, `chunkText`
* `src/lib/embeddings.ts`      — `generateEmbedding` (retry loop)
* `src/app/api/upload/route.ts` — the upload ingestion step and the RAG
  answering route (`POST`), including its marker-delimited byte stream
* `src/app/api/documents/route.ts` — the `GET` listing handler

JavaScript strings are modelled as `List Char` (or Lean `String` where no
index arithmetic happens), JS numbers used as counters/lengths as `Nat`,
caller-supplied numeric parameters as `Int` (they may be negative), and
floating-point values that are only carried around (never computed with)
by their decimal renderings.
-/

/-- `Chunk` from `src/lib/chunking.ts`: one segment of a document together
with its 0-based position in the chunk sequence. -/
structure Chunk where
  text : List Char
  index : Nat
  deriving DecidableEq, Repr

/-- The `while (position < text.length)` loop of `chunkText`
(`src/lib/chunking.ts` lines 20–26).  `c` is `chunkSize`, `step` is
`chunkSize - overlap`.  The loop advances `position` by `step ≥ 1` each
iteration, so it runs at most `text.length` times; the explicit `fuel`
argument (always instantiated with `text.length`) only bounds that
iteration count — the guard `pos < text.length`, not the fuel, is what
stops the loop whenever `text.length - pos ≤ fuel` and `0 < step`. -/
def chunkLoop (text : List Char) (c step : Nat) : Nat → Nat → Nat → List Chunk
  | 0, _, _ => []
  | fuel + 1, pos, idx =>
    if pos < text.length then
      ⟨(text.drop pos).take c, idx⟩ :: chunkLoop text c step fuel (pos + step) (idx + 1)
    else []

/-- `chunkText` from `src/lib/chunking.ts` (lines 6–29): validation of
`chunkSize`/`overlap` followed by the slicing loop.  A thrown `Error` is
modelled as `Except.error` carrying the message. -/
def chunkText (text : List Char) (chunkSize overlap : Int) : Except String (List Chunk) :=
  if chunkSize ≤ 0 then .error "chunkSize must be positive"
  else if overlap < 0 then .error "overlap cannot be negative"
  else if overlap ≥ chunkSize then .error "overlap must be smaller than chunkSize"
  else .ok (chunkLoop text chunkSize.toNat (chunkSize.toNat - overlap.toNat) text.length 0 0)

/-- `chunkText` with its JS default parameters `chunkSize = 500`,
`overlap = 50` (`src/lib/chunking.ts` lines 8–9). -/
def chunkTextDefault (text : List Char) : Except String (List Chunk) :=
  chunkText text 500 50

/-- Number of loop iterations performed from position `pos`:
`⌈(L - pos) / step⌉` written with natural division. -/
def ceilChunks (L pos step : Nat) : Nat := (L - pos + step - 1) / step

theorem ceilChunks_zero {L pos step : Nat} (hstep : 0 < step) (hpos : ¬ pos < L) :
    ceilChunks L pos step = 0 := by
  unfold ceilChunks
  have h : L - pos = 0 := by omega
  rw [h]
  exact Nat.div_eq_of_lt (by omega)

theorem ceilChunks_succ {L pos step : Nat} (hstep : 0 < step) (hpos : pos < L) :
    ceilChunks L pos step = ceilChunks L (pos + step) step + 1 := by
  unfold ceilChunks
  rcases le_or_lt (L - pos) step with hle | hlt
  · have h1 : L - (pos + step) = 0 := by omega
    rw [h1]
    have h2 : (0 + step - 1) / step = 0 := Nat.div_eq_of_lt (by omega)
    rw [h2]
    have hx : L - pos + step - 1 = (L - pos - 1) + step := by omega
    rw [hx, Nat.add_div_right _ hstep, Nat.div_eq_of_lt (by omega)]
  · have hx : L - pos + step - 1 = (L - (pos + step) + step - 1) + step := by omega
    rw [hx, Nat.add_div_right _ hstep]

/-- Closed form of the slicing loop: starting at `pos` it produces one
chunk per multiple of `step`, each chunk being the length-`c` slice at its
start position. -/
theorem chunkLoop_eq_map (text : List Char) (c step : Nat) (hstep : 0 < step) :
    ∀ fuel pos idx, text.length - pos ≤ fuel →
      chunkLoop text c step fuel pos idx =
        (List.range (ceilChunks text.length pos step)).map
          (fun k => ⟨(text.drop (pos + k * step)).take c, idx + k⟩) := by
  intro fuel
  induction fuel with
  | zero =>
    intro pos idx h
    have hge : ¬ pos < text.length := by omega
    rw [ceilChunks_zero hstep hge]
    simp [chunkLoop]
  | succ fuel ih =>
    intro pos idx h
    by_cases hpos : pos < text.length
    · rw [chunkLoop, if_pos hpos, ceilChunks_succ hstep hpos,
        ih (pos + step) (idx + 1) (by omega), List.range_succ_eq_map]
      simp only [List.map_cons, List.map_map]
      congr 1
      · simp
      · refine List.map_congr_left fun k _ => ?_
        simp only [Function.comp_apply, Chunk.mk.injEq]
        constructor
        · have hk : pos + step + k * step = pos + (k + 1) * step := by ring
          rw [hk]
        · omega
    · rw [chunkLoop, if_neg hpos, ceilChunks_zero hstep hpos]
      simp

theorem chunkLoop_length (text : List Char) (c step : Nat) (hstep : 0 < step)
    (fuel pos idx : Nat) (h : text.length - pos ≤ fuel) :
    (chunkLoop text c step fuel pos idx).length = ceilChunks text.length pos step := by
  rw [chunkLoop_eq_map text c step hstep fuel pos idx h]
  simp

/-- Membership bound for the closed form: index `k` is produced exactly
when its start position `k * step` is still inside the text. -/
theorem lt_ceilChunks_iff {L step : Nat} (hstep : 0 < step) (k : Nat) :
    k < ceilChunks L 0 step ↔ k * step < L := by
  unfold ceilChunks
  rw [Nat.sub_zero]
  constructor
  · intro h
    have h1 : k + 1 ≤ (L + step - 1) / step := h
    rw [Nat.le_div_iff_mul_le hstep, Nat.succ_mul] at h1
    omega
  · intro h
    have h1 : (k + 1) * step ≤ L + step - 1 := by
      rw [Nat.succ_mul]
      omega
    have h2 : k + 1 ≤ (L + step - 1) / step := by
      rw [Nat.le_div_iff_mul_le hstep]
      exact h1
    omega

/-- The reconstruction map of the lossless-coverage property: take the
first `step` characters of every chunk in order and all remaining
characters of the final chunk. -/
def reconstruct (step : Nat) : List Chunk → List Char
  | [] => []
  | [ch] => ch.text
  | ch :: ch2 :: rest => ch.text.take step ++ reconstruct step (ch2 :: rest)

theorem reconstruct_chunkLoop (text : List Char) (c step : Nat)
    (hstep : 0 < step) (hsc : step ≤ c) :
    ∀ fuel pos idx, text.length - pos ≤ fuel → pos < text.length →
      reconstruct step (chunkLoop text c step fuel pos idx) = text.drop pos := by
  intro fuel
  induction fuel with
  | zero =>
    intro pos idx h hpos
    omega
  | succ fuel ih =>
    intro pos idx h hpos
    rw [chunkLoop, if_pos hpos]
    by_cases h2 : pos + step < text.length
    · have hne : chunkLoop text c step fuel (pos + step) (idx + 1) ≠ [] := by
        rcases fuel with _ | fuel
        · omega
        · rw [chunkLoop, if_pos h2]
          simp
      obtain ⟨a, l, hal⟩ := List.exists_cons_of_ne_nil hne
      rw [hal, reconstruct, ← hal, ih (pos + step) (idx + 1) (by omega) h2]
      show ((text.drop pos).take c).take step ++ text.drop (pos + step) = text.drop pos
      rw [List.take_take, min_eq_left hsc]
      have hd : (text.drop pos).drop step = text.drop (pos + step) := by
        rw [List.drop_drop, Nat.add_comm]
      rw [← hd, List.take_append_drop]
    · have hnil : chunkLoop text c step fuel (pos + step) (idx + 1) = [] := by
        rcases fuel with _ | fuel
        · rfl
        · rw [chunkLoop, if_neg h2]
      rw [hnil, reconstruct]
      show (text.drop pos).take c = text.drop pos
      apply List.take_of_length_le
      rw [List.length_drop]
      omega

/-- C4: for every text and every valid parameter pair `0 < chunkSize`,
`0 ≤ overlap < chunkSize`, concatenating each chunk's first
`chunkSize - overlap` characters in index order plus the remaining
characters of the final chunk reconstructs the original text exactly. -/
theorem c4_lossless_coverage (text : List Char) (chunkSize overlap : Int)
    (hc : 0 < chunkSize) (ho : 0 ≤ overlap) (hoc : overlap < chunkSize) :
    ∃ cs, chunkText text chunkSize overlap = .ok cs ∧
      reconstruct (chunkSize.toNat - overlap.toNat) cs = text := by
  have hstep : 0 < chunkSize.toNat - overlap.toNat := by omega
  have hsc : chunkSize.toNat - overlap.toNat ≤ chunkSize.toNat := by omega
  unfold chunkText
  rw [if_neg (by omega), if_neg (by omega), if_neg (by omega)]
  refine ⟨_, rfl, ?_⟩
  by_cases hL : 0 < text.length
  · have h := reconstruct_chunkLoop text chunkSize.toNat (chunkSize.toNat - overlap.toNat)
      hstep hsc text.length 0 0 (by omega) hL
    simpa using h
  · have ht : text = [] := by
      cases text with
      | nil => rfl
      | cons a l => simp at hL
    subst ht
    rfl

/-- Hypothesis-discharging instance of the C4 theorem on the text
"abcdef" with `chunkSize = 3`, `overlap = 1`. -/
theorem c4_lossless_coverage_witness :
    (0 : Int) < 3 ∧ (0 : Int) ≤ 1 ∧ (1 : Int) < 3 ∧
    (∃ cs, chunkText "abcdef".data 3 1 = .ok cs ∧
      reconstruct ((3 : Int).toNat - (1 : Int).toNat) cs = "abcdef".data) :=
  ⟨by decide, by decide, by decide,
    c4_lossless_coverage "abcdef".data 3 1 (by decide) (by decide) (by decide)⟩

/-- C6: every parameter pair violating `chunkSize > 0` or
`0 ≤ overlap < chunkSize` makes `chunkText` fail with an error before any
chunk is produced. -/
theorem c6_invalid_params (text : List Char) (chunkSize overlap : Int)
    (h : chunkSize ≤ 0 ∨ overlap < 0 ∨ chunkSize ≤ overlap) :
    ∃ msg, chunkText text chunkSize overlap = .error msg := by
  unfold chunkText
  by_cases h1 : chunkSize ≤ 0
  · rw [if_pos h1]
    exact ⟨_, rfl⟩
  · rw [if_neg h1]
    by_cases h2 : overlap < 0
    · rw [if_pos h2]
      exact ⟨_, rfl⟩
    · rw [if_neg h2]
      rw [if_pos (by omega : overlap ≥ chunkSize)]
      exact ⟨_, rfl⟩

/-- Hypothesis-discharging instance of the C6 theorem at
`segment(text, c, c)` with `c = 7`. -/
theorem c6_invalid_params_witness :
    ((7 : Int) ≤ 0 ∨ (7 : Int) < 0 ∨ (7 : Int) ≤ 7) ∧
    (∃ msg, chunkText "xy".data 7 7 = .error msg) :=
  ⟨by decide, c6_invalid_params "xy".data 7 7 (by decide)⟩

deriving instance DecidableEq for Except

/-- C5 counterexample: text of length 20 with `chunkSize = 20`,
`overlap = 5` satisfies `0 < L ≤ chunkSize`, yet the segmenter produces
two chunks (the second being the last five characters), not exactly one
chunk equal to the whole text. -/
theorem c5_counterexample :
    0 < (List.replicate 20 'a').length ∧
    (List.replicate 20 'a').length ≤ (20 : Int).toNat ∧
    chunkText (List.replicate 20 'a') 20 5 =
      .ok [⟨List.replicate 20 'a', 0⟩, ⟨List.replicate 5 'a', 1⟩] := by
  decide

/-- C5 (amended): for valid parameters, chunk `k` is exactly the
substring starting at `k * (chunkSize - overlap)` of length `chunkSize`
(shorter at the end of the text) with index `k`; chunks stop once the
start position reaches or exceeds the text length; the empty text yields
no chunks; text of length `0 < L ≤ chunkSize - overlap` (rather than
`L ≤ chunkSize`, which the code refutes) yields exactly one chunk equal
to the whole text; the unconfigured defaults are `chunkSize = 500`,
`overlap = 50`. -/
theorem c5_segmenter_amended (text : List Char) (chunkSize overlap : Int)
    (hc : 0 < chunkSize) (ho : 0 ≤ overlap) (hoc : overlap < chunkSize) :
    ∃ cs, chunkText text chunkSize overlap = .ok cs ∧
      (∀ k (hk : k < cs.length),
        cs.get ⟨k, hk⟩ =
          ⟨(text.drop (k * (chunkSize.toNat - overlap.toNat))).take chunkSize.toNat, k⟩) ∧
      (∀ k, k < cs.length ↔ k * (chunkSize.toNat - overlap.toNat) < text.length) ∧
      (text = [] → cs = []) ∧
      (0 < text.length → text.length ≤ chunkSize.toNat - overlap.toNat → cs = [⟨text, 0⟩]) ∧
      chunkTextDefault text = chunkText text 500 50 := by
  have hstep : 0 < chunkSize.toNat - overlap.toNat := by omega
  unfold chunkText
  rw [if_neg (by omega), if_neg (by omega), if_neg (by omega)]
  have hmap := chunkLoop_eq_map text chunkSize.toNat (chunkSize.toNat - overlap.toNat)
    hstep text.length 0 0 (by omega)
  refine ⟨_, rfl, ?_, ?_, ?_, ?_, rfl⟩
  · intro k hk
    rw [List.get_of_eq hmap ⟨k, hk⟩]
    simp only [List.get_eq_getElem, List.getElem_map, List.getElem_range, Nat.zero_add]
  · intro k
    rw [hmap]
    simp only [List.length_map, List.length_range]
    exact lt_ceilChunks_iff hstep k
  · intro ht
    subst ht
    rfl
  · intro hL hle
    rw [hmap]
    have hone : ceilChunks text.length 0 (chunkSize.toNat - overlap.toNat) = 1 := by
      unfold ceilChunks
      rw [Nat.sub_zero]
      have hx : text.length + (chunkSize.toNat - overlap.toNat) - 1 =
          (text.length - 1) + (chunkSize.toNat - overlap.toNat) := by omega
      rw [hx, Nat.add_div_right _ hstep, Nat.div_eq_of_lt (by omega)]
    rw [hone]
    have hr : List.range 1 = [0] := rfl
    rw [hr]
    simp only [List.map_cons, List.map_nil, Nat.zero_mul, Nat.zero_add, List.drop_zero]
    rw [List.take_of_length_le (by omega)]

/-- Hypothesis-discharging instance of the amended C5 theorem on the text
"ab" with `chunkSize = 5`, `overlap = 1`. -/
theorem c5_segmenter_amended_witness :
    (0 : Int) < 5 ∧ (0 : Int) ≤ 1 ∧ (1 : Int) < 5 ∧
    (∃ cs, chunkText "ab".data 5 1 = .ok cs ∧
      (∀ k (hk : k < cs.length),
        cs.get ⟨k, hk⟩ =
          ⟨("ab".data.drop (k * ((5 : Int).toNat - (1 : Int).toNat))).take (5 : Int).toNat, k⟩) ∧
      (∀ k, k < cs.length ↔ k * ((5 : Int).toNat - (1 : Int).toNat) < "ab".data.length) ∧
      ("ab".data = [] → cs = []) ∧
      (0 < "ab".data.length → "ab".data.length ≤ (5 : Int).toNat - (1 : Int).toNat →
        cs = [⟨"ab".data, 0⟩]) ∧
      chunkTextDefault "ab".data = chunkText "ab".data 500 50) :=
  ⟨by decide, by decide, by decide,
    c5_segmenter_amended "ab".data 5 1 (by decide) (by decide) (by decide)⟩

/-- C10: for nonempty text and valid parameters the segmenter produces
exactly `⌈L / (chunkSize - overlap)⌉` chunks, and when `L` is not a
multiple of the step but the remainder is at most `overlap` (and at least
two chunks exist), the final chunk's text is entirely contained in — a
suffix of — the preceding chunk's text. -/
theorem c10_chunk_count (text : List Char) (chunkSize overlap : Int)
    (hc : 0 < chunkSize) (ho : 0 ≤ overlap) (hoc : overlap < chunkSize)
    (hL : 0 < text.length) :
    ∃ cs, chunkText text chunkSize overlap = .ok cs ∧
      cs.length =
        (text.length + (chunkSize.toNat - overlap.toNat) - 1) /
          (chunkSize.toNat - overlap.toNat) ∧
      (text.length % (chunkSize.toNat - overlap.toNat) ≠ 0 →
        text.length % (chunkSize.toNat - overlap.toNat) ≤ overlap.toNat →
        chunkSize.toNat - overlap.toNat < text.length →
        ∃ last prev, cs[cs.length - 1]? = some last ∧ cs[cs.length - 2]? = some prev ∧
          List.IsSuffix last.text prev.text) := by
  have hstep : 0 < chunkSize.toNat - overlap.toNat := by omega
  set step : Nat := chunkSize.toNat - overlap.toNat with hstepdef
  unfold chunkText
  rw [if_neg (by omega), if_neg (by omega), if_neg (by omega)]
  have hmap := chunkLoop_eq_map text chunkSize.toNat step hstep text.length 0 0 (by omega)
  have hlen : (chunkLoop text chunkSize.toNat step text.length 0 0).length =
      ceilChunks text.length 0 step := by
    rw [hmap]
    simp
  refine ⟨_, rfl, ?_, ?_⟩
  · rw [hlen]
    unfold ceilChunks
    rw [Nat.sub_zero]
  · intro hr hro hstepL
    -- at least two chunks
    have hN2 : 2 ≤ ceilChunks text.length 0 step := by
      have h1 : 1 < ceilChunks text.length 0 step := by
        rw [lt_ceilChunks_iff hstep 1]
        omega
      omega
    obtain ⟨M, hM⟩ : ∃ M, ceilChunks text.length 0 step = M + 2 :=
      ⟨ceilChunks text.length 0 step - 2, by omega⟩
    have hin : (M + 1) * step < text.length := by
      rw [← lt_ceilChunks_iff hstep (M + 1), hM]
      omega
    have hout : ¬ ((M + 2) * step < text.length) := by
      rw [← lt_ceilChunks_iff hstep (M + 2), hM]
      omega
    have e2 : (M + 2) * step = (M + 1) * step + step := by ring
    have e1 : (M + 1) * step = M * step + step := by ring
    -- the remainder equals the final chunk's start offset distance
    have hmod : text.length % step = text.length - (M + 1) * step := by
      rcases Nat.lt_or_ge (text.length - (M + 1) * step) step with hlt | hge
      · have hsplit : text.length = (text.length - (M + 1) * step) + (M + 1) * step := by
          omega
        conv_lhs => rw [hsplit]
        rw [Nat.add_mul_mod_self_right, Nat.mod_eq_of_lt hlt]
      · exfalso
        have heq : text.length = (M + 2) * step := by omega
        rw [heq, Nat.mul_mod_left] at hr
        exact hr rfl
    have hsat1 : text.length - (M + 1) * step ≤ chunkSize.toNat := by omega
    have hsat2 : text.length - M * step ≤ chunkSize.toNat := by omega
    refine ⟨⟨text.drop ((M + 1) * step), M + 1⟩, ⟨text.drop (M * step), M⟩, ?_, ?_, ?_⟩
    · rw [hlen, hM, hmap]
      have hidx : M + 2 - 1 = M + 1 := by omega
      rw [hidx, hM]
      rw [List.getElem?_map, List.getElem?_range (by omega : M + 1 < M + 2)]
      simp only [Option.map_some', Option.map_some, Nat.zero_add, Option.some.injEq,
        Chunk.mk.injEq, and_true]
      apply List.take_of_length_le
      rw [List.length_drop]
      omega
    · rw [hlen, hM, hmap]
      have hidx : M + 2 - 2 = M := by omega
      rw [hidx, hM]
      rw [List.getElem?_map, List.getElem?_range (by omega : M < M + 2)]
      simp only [Option.map_some', Option.map_some, Nat.zero_add, Option.some.injEq,
        Chunk.mk.injEq, and_true]
      apply List.take_of_length_le
      rw [List.length_drop]
      omega
    · refine ⟨(text.drop (M * step)).take step, ?_⟩
      have hd : (text.drop (M * step)).drop step = text.drop ((M + 1) * step) := by
        rw [List.drop_drop, ← e1]
      rw [← hd, List.take_append_drop]

/-- Hypothesis-discharging instance of the C10 theorem at `L = 20`,
`chunkSize = 20`, `overlap = 5` (two chunks, the second a suffix of the
first). -/
theorem c10_chunk_count_witness :
    (0 : Int) < 20 ∧ (0 : Int) ≤ 5 ∧ (5 : Int) < 20 ∧ 0 < (List.replicate 20 'b').length ∧
    (∃ cs, chunkText (List.replicate 20 'b') 20 5 = .ok cs ∧
      cs.length =
        ((List.replicate 20 'b').length + ((20 : Int).toNat - (5 : Int).toNat) - 1) /
          ((20 : Int).toNat - (5 : Int).toNat) ∧
      ((List.replicate 20 'b').length % ((20 : Int).toNat - (5 : Int).toNat) ≠ 0 →
        (List.replicate 20 'b').length % ((20 : Int).toNat - (5 : Int).toNat) ≤ (5 : Int).toNat →
        (20 : Int).toNat - (5 : Int).toNat < (List.replicate 20 'b').length →
        ∃ last prev, cs[cs.length - 1]? = some last ∧ cs[cs.length - 2]? = some prev ∧
          List.IsSuffix last.text prev.text)) :=
  ⟨by decide, by decide, by decide, by decide,
    c10_chunk_count (List.replicate 20 'b') 20 5 (by decide) (by decide) (by decide) (by decide)⟩

/-- Outcome of one call to the remote embedding service
(`openai.embeddings.create` in `src/lib/embeddings.ts`): either the
request throws (`err` with the error message), or it returns a response
whose `data[0]?.embedding` payload may be present or missing. -/
inductive CallResult (α : Type) where
  | err (msg : String)
  | ok (payload : Option α)
  deriving DecidableEq

/-- `MAX_RETRIES` from `src/lib/embeddings.ts` line 7. -/
def MAX_RETRIES : Nat := 3

/-- Observable trace of one `generateEmbedding` call: its result, the
sequence of back-off delays actually slept (in milliseconds), and the
number of service calls made. -/
structure EmbedTrace (α : Type) where
  result : Except String α
  delays : List Nat
  attempts : Nat
  deriving DecidableEq

/-- The retry loop of `generateEmbedding` (`src/lib/embeddings.ts` lines
10–35).  `calls n` is the outcome of the `n`-th service call (attempt
counter value `n` at call time).  A missing payload throws
"No embedding returned from OpenAI", which the `catch` treats exactly
like a network error: increment `attempt`, rethrow when the budget is
exhausted, otherwise sleep `delayMs` and double it.  The structural
`fuel` equals `MAX_RETRIES - attempt`, the number of loop iterations the
`while (attempt < MAX_RETRIES)` guard still allows; the fuel-0 branch is
the unreachable fall-through `throw` after the loop. -/
def genLoop {α : Type} (calls : Nat → CallResult α) :
    Nat → Nat → Nat → List Nat → EmbedTrace α
  | 0, attempt, _, delays => ⟨.error "Failed to generate embedding", delays, attempt⟩
  | fuel + 1, attempt, delayMs, delays =>
    match calls attempt with
    | .ok (some v) => ⟨.ok v, delays, attempt + 1⟩
    | .ok none =>
      if MAX_RETRIES ≤ attempt + 1 then
        ⟨.error "No embedding returned from OpenAI", delays, attempt + 1⟩
      else genLoop calls fuel (attempt + 1) (delayMs * 2) (delays ++ [delayMs])
    | .err msg =>
      if MAX_RETRIES ≤ attempt + 1 then ⟨.error msg, delays, attempt + 1⟩
      else genLoop calls fuel (attempt + 1) (delayMs * 2) (delays ++ [delayMs])

/-- `generateEmbedding` from `src/lib/embeddings.ts`: start at attempt 0
with a 250 ms delay and no sleeps performed. -/
def generateEmbedding {α : Type} (calls : Nat → CallResult α) : EmbedTrace α :=
  genLoop calls MAX_RETRIES 0 250 []

/-- `true` exactly when a call outcome carries a vector payload. -/
def callOk {α : Type} : CallResult α → Bool
  | .ok (some _) => true
  | _ => false

/-- The error message the `catch` block observes for a failed call. -/
def failMsg {α : Type} : CallResult α → String
  | .err msg => msg
  | .ok _ => "No embedding returned from OpenAI"

/-- C3: `generateEmbedding` makes at most 3 attempts; every failure —
including a parsed response with no vector payload — is retried after a
delay of 250 then 500 time-units (doubling), with no delay after the
last attempt; two failures followed by a success return the vector after
exactly the two delays 250, 500; three failures propagate the last
observed error. -/
theorem c3_embed_retry {α : Type} (calls : Nat → CallResult α) :
    (generateEmbedding calls).attempts ≤ 3 ∧
    ((generateEmbedding calls).delays = [] ∨ (generateEmbedding calls).delays = [250] ∨
      (generateEmbedding calls).delays = [250, 500]) ∧
    (∀ v, callOk (calls 0) = false → callOk (calls 1) = false →
      calls 2 = .ok (some v) →
      (generateEmbedding calls).result = .ok v ∧
      (generateEmbedding calls).delays = [250, 500] ∧
      (generateEmbedding calls).attempts = 3) ∧
    (callOk (calls 0) = false → callOk (calls 1) = false →
      callOk (calls 2) = false →
      (generateEmbedding calls).result = .error (failMsg (calls 2)) ∧
      (generateEmbedding calls).delays = [250, 500] ∧
      (generateEmbedding calls).attempts = 3) := by
  unfold generateEmbedding MAX_RETRIES
  rcases h0 : calls 0 with m0 | p0
  case err =>
    rcases h1 : calls 1 with m1 | p1
    case err =>
      rcases h2 : calls 2 with m2 | p2
      case err => simp [genLoop, h0, h1, h2, MAX_RETRIES, callOk, failMsg]
      case ok =>
        rcases p2 with _ | v2 <;>
          simp [genLoop, h0, h1, h2, MAX_RETRIES, callOk, failMsg]
    case ok =>
      rcases p1 with _ | v1
      · rcases h2 : calls 2 with m2 | p2
        case err => simp [genLoop, h0, h1, h2, MAX_RETRIES, callOk, failMsg]
        case ok =>
          rcases p2 with _ | v2 <;>
            simp [genLoop, h0, h1, h2, MAX_RETRIES, callOk, failMsg]
      · simp [genLoop, h0, h1, MAX_RETRIES, callOk, failMsg]
  case ok =>
    rcases p0 with _ | v0
    · rcases h1 : calls 1 with m1 | p1
      case err =>
        rcases h2 : calls 2 with m2 | p2
        case err => simp [genLoop, h0, h1, h2, MAX_RETRIES, callOk, failMsg]
        case ok =>
          rcases p2 with _ | v2 <;>
            simp [genLoop, h0, h1, h2, MAX_RETRIES, callOk, failMsg]
      case ok =>
        rcases p1 with _ | v1
        · rcases h2 : calls 2 with m2 | p2
          case err => simp [genLoop, h0, h1, h2, MAX_RETRIES, callOk, failMsg]
          case ok =>
            rcases p2 with _ | v2 <;>
              simp [genLoop, h0, h1, h2, MAX_RETRIES, callOk, failMsg]
        · simp [genLoop, h0, h1, MAX_RETRIES, callOk, failMsg]
    · simp [genLoop, h0, MAX_RETRIES, callOk, failMsg]

/-- Concrete schedule for the C3 theorem: an empty-payload response, a
network error, then a successful vector. -/
def c3calls : Nat → CallResult Nat
  | 0 => .ok none
  | 1 => .err "network down"
  | _ => .ok (some 42)

/-- Hypothesis-discharging instance of the C3 theorem: the fail-twice-
then-succeed schedule returns the vector after delays 250 and 500. -/
theorem c3_embed_retry_witness :
    callOk (c3calls 0) = false ∧ callOk (c3calls 1) = false ∧
    c3calls 2 = .ok (some 42) ∧
    (generateEmbedding c3calls).result = .ok 42 ∧
    (generateEmbedding c3calls).delays = [250, 500] ∧
    (generateEmbedding c3calls).attempts = 3 := by
  have h := (c3_embed_retry c3calls).2.2.1 42 (by decide) (by decide) (by decide)
  exact ⟨by decide, by decide, by decide, h.1, h.2.1, h.2.2⟩

/-- JSON values as JavaScript sees them.  Numbers are carried by their
decimal renderings (the exact character sequences `JSON.stringify` would
emit), since the answering route never computes with them. -/
inductive Json where
  | null
  | bool (b : Bool)
  | num (render : String)
  | str (s : String)
  | arr (elems : List Json)
  | obj (fields : List (String × Json))

/-- Hexadecimal digit (lowercase), as used by `JSON.stringify` for
control-character escapes. -/
def hexDigit (n : Nat) : Char :=
  if n < 10 then Char.ofNat (48 + n) else Char.ofNat (87 + n)

/-- `JSON.stringify` string-character escaping. -/
def escapeChar (ch : Char) : String :=
  if ch = '"' then "\\\""
  else if ch = '\\' then "\\\\"
  else if ch = '\n' then "\\n"
  else if ch = '\r' then "\\r"
  else if ch = '\t' then "\\t"
  else if ch.toNat = 8 then "\\b"
  else if ch.toNat = 12 then "\\f"
  else if ch.toNat < 32 then
    "\\u00" ++ String.singleton (hexDigit (ch.toNat / 16)) ++
      String.singleton (hexDigit (ch.toNat % 16))
  else String.singleton ch

/-- `JSON.stringify` of a string value. -/
def jsonEscape (s : String) : String :=
  "\"" ++ String.join (s.data.map escapeChar) ++ "\""

/-- `JSON.stringify` on a JSON value (object keys in insertion order, no
whitespace, numbers emitted by their carried rendering). -/
def Json.stringify : Json → String
  | .null => "null"
  | .bool true => "true"
  | .bool false => "false"
  | .num r => r
  | .str s => jsonEscape s
  | .arr elems =>
    "[" ++ String.intercalate "," (elems.attach.map (fun e => e.1.stringify)) ++ "]"
  | .obj fields =>
    "\x7b" ++
      String.intercalate ","
        (fields.attach.map (fun f => jsonEscape f.1.1 ++ ":" ++ f.1.2.stringify)) ++
      "\x7d"
termination_by j => sizeOf j
decreasing_by
  · have h := List.sizeOf_lt_of_mem e.2
    simp only [Json.arr.sizeOf_spec]
    omega
  · have h := List.sizeOf_lt_of_mem f.2
    rcases f with ⟨⟨a, b⟩, hf⟩
    simp only [Json.obj.sizeOf_spec]
    simp only [Prod.mk.sizeOf_spec] at h
    omega

/-- First-match key lookup in a JSON object (JS property access on an
object parsed from JSON, whose keys are unique). -/
def lookupKey : List (String × Json) → String → Option Json
  | [], _ => none
  | (k, v) :: rest, key => if k = key then some v else lookupKey rest key

/-- `doc.metadata?.source` as a string: `some s` exactly when `metadata`
is an object whose `source` property is the string `s` (anything else —
missing metadata, missing property, non-string value — compares unequal
to a non-empty filter string under `===`). -/
def metaSource : Json → Option String
  | .obj kvs =>
    match lookupKey kvs "source" with
    | some (.str s) => some s
    | _ => none
  | _ => none

/-- `RetrievedDocument` from the RAG route (`src/app/api/upload/route.ts`
lines 180–185): one row returned by the `match_documents` RPC.  The
`similarity` field is a JS number carried by its rendering; `none` models
a missing (`undefined`/`null`) value, which `?? 0` replaces. -/
structure RetrievedDocument where
  content : String
  embedding : List String
  metadata : Json
  similarity : Option String

/-- `SOURCE_MARKER` from the RAG route (line 187). -/
def SOURCE_MARKER : String := "__SOURCES__"

/-- One element of `sourcesPayload` (lines 262–266): the object
`{content, metadata, similarity: m.similarity ?? 0}` with keys in
insertion order. -/
def sourceJson (m : RetrievedDocument) : Json :=
  .obj [("content", .str m.content), ("metadata", m.metadata),
    ("similarity", .num (m.similarity.getD "0"))]

/-- JS truthiness of the request's `question` field
(`!question || typeof question !== "string"`, line 194): `none` models a
missing or non-string value, and the empty string is falsy. -/
def questionTruthy : Option String → Bool
  | some s => s != ""
  | none => false

/-- The `document_source` post-query narrowing (lines 226–230):
`if (document_source) matches = matches.filter(...)`.  A missing or
empty (falsy) filter leaves the ranked matches untouched. -/
def filterMatches (matchList : List RetrievedDocument) :
    Option String → List RetrievedDocument
  | some s =>
    if s = "" then matchList
    else matchList.filter (fun d => metaSource d.metadata == some s)
  | none => matchList

/-- One event of the Anthropic generation stream (lines 273–280): either
a `content_block_delta` carrying a `text_delta`, or any other event kind,
which the loop ignores. -/
inductive StreamEvent where
  | textDelta (text : String)
  | otherEvent
  deriving DecidableEq

/-- The text increment a stream event contributes, if any. -/
def deltaText : StreamEvent → Option String
  | .textDelta s => some s
  | .otherEvent => none

/-- The context block (lines 239–241): each match's content followed by a
delimiter line, joined with newlines. -/
def buildContext (matchList : List RetrievedDocument) : String :=
  String.intercalate "\n" (matchList.map (fun d => d.content ++ "\n---"))

/-- The single trailing chunk enqueued after the generation stream is
exhausted (lines 282–284): a newline, the marker, and the JSON encoding
of the sources payload. -/
def trailerChunk (matchList : List RetrievedDocument) : String :=
  "\n" ++ SOURCE_MARKER ++ Json.stringify (.arr (matchList.map sourceJson))

/-- The chunks the `ReadableStream` enqueues (lines 270–291): every text
increment in arrival order; then, only if the upstream stream terminated
normally, the trailer.  On an upstream error the `catch` marks the
stream errored and nothing further is enqueued. -/
def streamBody (events : List StreamEvent) (genErr : Option String)
    (trailer : String) : List String :=
  events.filterMap deltaText ++
    (match genErr with
     | none => [trailer]
     | some _ => [])

/-- The RAG route's HTTP response: a JSON error response with a status
code, or the streaming response together with whether the byte stream
terminated in an error state. -/
inductive RagResponse where
  | json (status : Nat) (body : String)
  | stream (chunks : List String) (errored : Bool)
  deriving DecidableEq

/-- The `POST` handler of the RAG route (`src/app/api/upload/route.ts`
lines 189–304), with each collaborator's behaviour supplied as an
argument: `embedResult` is the outcome of `generateEmbedding(question)`
(an exception is caught by the outer `catch` and returned as a 500),
`rpcData`/`rpcError` the `match_documents` reply, and
`genEvents`/`genErr` the generation stream's events and its terminal
error, if any. -/
def ragHandler (question document_source : Option String) (apiKeySet : Bool)
    (embedResult : Except String (List String))
    (rpcData : Option (List RetrievedDocument)) (rpcError : Option String)
    (genEvents : List StreamEvent) (genErr : Option String) : RagResponse :=
  if questionTruthy question = false then .json 400 "Missing or invalid question"
  else if apiKeySet = false then .json 500 "ANTHROPIC_API_KEY is not set"
  else
    match embedResult with
    | .error msg => .json 500 msg
    | .ok _qvec =>
      match rpcError with
      | some msg => .json 500 ("Supabase match_documents failed: " ++ msg)
      | none =>
        let matchList := filterMatches (rpcData.getD []) document_source
        if matchList.isEmpty then
          .json 404 "No relevant chunks found. Try rephrasing or uploading."
        else
          .stream (streamBody genEvents genErr (trailerChunk matchList)) genErr.isSome

/-- C1: when an answering request reaches generation and the generation
stream terminates normally, the response byte stream is exactly the text
increments in arrival order, then one final chunk consisting of a
newline, the literal marker, and the JSON encoding of the ordered match
list used as context, after which the stream is closed (not errored)
with no further bytes. -/
theorem c1_stream_layout (question ds : Option String) (qvec : List String)
    (data : List RetrievedDocument) (events : List StreamEvent)
    (hq : questionTruthy question = true)
    (hne : filterMatches data ds ≠ []) :
    ragHandler question ds true (.ok qvec) (some data) none events none =
      .stream
        (events.filterMap deltaText ++
          ["\n" ++ SOURCE_MARKER ++
            Json.stringify (.arr ((filterMatches data ds).map sourceJson))])
        false := by
  have hne' : (filterMatches data ds).isEmpty = false := by
    rcases hfm : filterMatches data ds with _ | ⟨d, rest⟩
    · exact absurd hfm hne
    · rfl
  simp [ragHandler, hq, hne', streamBody, trailerChunk]

/-- A concrete retrieved row for the C1 witness. -/
def c1doc : RetrievedDocument :=
  ⟨"Paris is the capital.", ["0.1", "0.2"], .obj [("source", .str "a.txt")], some "0.91"⟩

/-- Hypothesis-discharging instance of the C1 theorem: two text deltas
and one ignored event, no upstream error. -/
theorem c1_stream_layout_witness :
    questionTruthy (some "q") = true ∧
    filterMatches [c1doc] none ≠ [] ∧
    ragHandler (some "q") none true (.ok []) (some [c1doc]) none
        [.textDelta "Par", .otherEvent, .textDelta "is"] none =
      .stream
        (([.textDelta "Par", .otherEvent, .textDelta "is"] :
            List StreamEvent).filterMap deltaText ++
          ["\n" ++ SOURCE_MARKER ++
            Json.stringify (.arr ((filterMatches [c1doc] none).map sourceJson))])
        false :=
  ⟨by decide, by simp [filterMatches],
    c1_stream_layout (some "q") none [] [c1doc]
      [.textDelta "Par", .otherEvent, .textDelta "is"] (by decide)
      (by simp [filterMatches])⟩

/-- C2: the optional source filter is a post-query narrowing of the
already-ranked matches (a document survives exactly when it came back
from the store and its `metadata.source` equals the filter), and whenever
the filtered match set is empty the request fails with the 404
no-relevant-context response — for every possible generation stream, so
no generation call can influence the outcome — even though the unfiltered
candidates may be nonempty. -/
theorem c2_source_filter (question : Option String) (qvec : List String)
    (data : List RetrievedDocument) (s : String)
    (hq : questionTruthy question = true) (hs : s ≠ "") :
    (∀ d, d ∈ filterMatches data (some s) ↔ d ∈ data ∧ metaSource d.metadata = some s) ∧
    (filterMatches data (some s) = [] →
      ∀ events genErr,
        ragHandler question (some s) true (.ok qvec) (some data) none events genErr =
          .json 404 "No relevant chunks found. Try rephrasing or uploading.") := by
  constructor
  · intro d
    simp only [filterMatches]
    rw [if_neg hs]
    simp [List.mem_filter]
  · intro hemp events genErr
    simp [ragHandler, hq, hemp]

/-- A concrete retrieved row (source "b.txt", high similarity) for the C2
witness. -/
def c2doc : RetrievedDocument :=
  ⟨"Rome is the capital.", ["0.3"], .obj [("source", .str "b.txt")], some "0.95"⟩

/-- Hypothesis-discharging instance of the C2 theorem: a qualifying match
from source "b.txt" is filtered out by `sourceFilter = "a.txt"` and the
request fails with the 404 response without consulting generation. -/
theorem c2_source_filter_witness :
    questionTruthy (some "q") = true ∧ ("a.txt" : String) ≠ "" ∧
    filterMatches [c2doc] (some "a.txt") = [] ∧
    ragHandler (some "q") (some "a.txt") true (.ok []) (some [c2doc]) none
        [.textDelta "unused"] none =
      .json 404 "No relevant chunks found. Try rephrasing or uploading." :=
  ⟨by decide, by decide, by rfl,
    (c2_source_filter (some "q") [] [c2doc] "a.txt" (by decide) (by decide)).2
      (by rfl) [.textDelta "unused"] none⟩

/-- C7: if the generation stream raises an error mid-flight, the output
stream terminates in the error state with exactly the text increments
already forwarded — no marker and no citation payload bytes are ever
appended, and nothing is retried at this layer. -/
theorem c7_midstream_error (question ds : Option String) (qvec : List String)
    (data : List RetrievedDocument) (events : List StreamEvent) (e : String)
    (hq : questionTruthy question = true)
    (hne : filterMatches data ds ≠ []) :
    ragHandler question ds true (.ok qvec) (some data) none events (some e) =
      .stream (events.filterMap deltaText) true := by
  have hne' : (filterMatches data ds).isEmpty = false := by
    rcases hfm : filterMatches data ds with _ | ⟨d, rest⟩
    · exact absurd hfm hne
    · rfl
  simp [ragHandler, hq, hne', streamBody]

/-- A concrete retrieved row for the C7 witness. -/
def c7doc : RetrievedDocument :=
  ⟨"Berlin is the capital.", ["0.7"], .obj [("source", .str "c.txt")], none⟩

/-- Hypothesis-discharging instance of the C7 theorem: after one
delivered increment the generation stream errors; the stream is errored
and only that increment was delivered. -/
theorem c7_midstream_error_witness :
    questionTruthy (some "q") = true ∧
    filterMatches [c7doc] none ≠ [] ∧
    ragHandler (some "q") none true (.ok []) (some [c7doc]) none
        [.textDelta "Ber"] (some "overloaded") =
      .stream (([.textDelta "Ber"] : List StreamEvent).filterMap deltaText) true :=
  ⟨by decide, by simp [filterMatches],
    c7_midstream_error (some "q") none [] [c7doc] [.textDelta "Ber"] "overloaded"
      (by decide) (by simp [filterMatches])⟩

/-- The metadata stamped on each stored row by the upload route
(`src/app/api/upload/route.ts` lines 143–147). -/
structure DocMetadata where
  source : String
  chunk_index : Nat
  total_chunks : Nat
  deriving DecidableEq, Repr

/-- One row handed to the bulk insert (lines 140–148); the embedding is
opaque to this layer, so its type is a parameter. -/
structure StoredRow (α : Type) where
  content : List Char
  embedding : α
  metadata : DocMetadata
  deriving DecidableEq, Repr

/-- The ingestion steps of the upload route's `POST` (lines 131–148):
segment the content with the default parameters, embed every chunk
(`Promise.all` keeps each result paired with its originating chunk, so
the row order is the chunk order), and build one row per chunk stamped
with `{source: filename, chunk_index, total_chunks}`.  `embed` is the
per-text embedding outcome; a thrown embedding error aborts the whole
batch, which the pure model reflects by making `embed` total (a failing
batch never reaches row construction). -/
def buildRows {α : Type} (embed : List Char → α) (filename : String)
    (content : List Char) : Except String (List (StoredRow α)) :=
  match chunkTextDefault content with
  | .error e => .error e
  | .ok chunks =>
    .ok (chunks.map (fun ch => ⟨ch.text, embed ch.text, ⟨filename, ch.index, chunks.length⟩⟩))

/-- C8: every stored row built by ingestion corresponds to exactly one
chunk (same count, same position, same content), its `metadata.source` is
the supplied filename, its `metadata.chunk_index` is the originating
chunk's index, and `metadata.total_chunks` is the chunk count and is
identical across all rows sharing the same source. -/
theorem c8_row_metadata {α : Type} (embed : List Char → α) (filename : String)
    (content : List Char) (chunks : List Chunk) (rows : List (StoredRow α))
    (hch : chunkTextDefault content = .ok chunks)
    (hr : buildRows embed filename content = .ok rows) :
    rows.length = chunks.length ∧
    (∀ k (hk : k < rows.length) (hk' : k < chunks.length),
      (rows.get ⟨k, hk⟩).content = (chunks.get ⟨k, hk'⟩).text ∧
      (rows.get ⟨k, hk⟩).metadata =
        ⟨filename, (chunks.get ⟨k, hk'⟩).index, chunks.length⟩) ∧
    (∀ r ∈ rows, r.metadata.source = filename ∧ r.metadata.total_chunks = chunks.length) ∧
    (∀ r1 ∈ rows, ∀ r2 ∈ rows, r1.metadata.source = r2.metadata.source →
      r1.metadata.total_chunks = r2.metadata.total_chunks) := by
  unfold buildRows at hr
  rw [hch] at hr
  have hrows : rows =
      chunks.map (fun ch => ⟨ch.text, embed ch.text, ⟨filename, ch.index, chunks.length⟩⟩) := by
    injection hr with h
    exact h.symm
  subst hrows
  refine ⟨by simp, ?_, ?_, ?_⟩
  · intro k hk hk'
    simp [List.get_eq_getElem, List.getElem_map]
  · intro r hrmem
    rcases List.mem_map.mp hrmem with ⟨ch, _, hch2⟩
    rw [← hch2]
    exact ⟨rfl, rfl⟩
  · intro r1 h1 r2 h2 _
    rcases List.mem_map.mp h1 with ⟨ch1, _, e1⟩
    rcases List.mem_map.mp h2 with ⟨ch2, _, e2⟩
    rw [← e1, ← e2]

/-- Hypothesis-discharging instance of the C8 theorem on a two-character
document (one chunk under the default parameters). -/
theorem c8_row_metadata_witness :
    chunkTextDefault "hi".data = .ok [⟨"hi".data, 0⟩] ∧
    buildRows (fun t => t.length) "notes.txt" "hi".data =
      .ok [⟨"hi".data, 2, ⟨"notes.txt", 0, 1⟩⟩] ∧
    (([⟨"hi".data, 2, ⟨"notes.txt", 0, 1⟩⟩] : List (StoredRow Nat)).length =
        ([⟨"hi".data, 0⟩] : List Chunk).length ∧
      (∀ k (hk : k < ([⟨"hi".data, 2, ⟨"notes.txt", 0, 1⟩⟩] : List (StoredRow Nat)).length)
        (hk' : k < ([⟨"hi".data, 0⟩] : List Chunk).length),
        (([⟨"hi".data, 2, ⟨"notes.txt", 0, 1⟩⟩] : List (StoredRow Nat)).get ⟨k, hk⟩).content =
          (([⟨"hi".data, 0⟩] : List Chunk).get ⟨k, hk'⟩).text ∧
        (([⟨"hi".data, 2, ⟨"notes.txt", 0, 1⟩⟩] : List (StoredRow Nat)).get ⟨k, hk⟩).metadata =
          ⟨"notes.txt", (([⟨"hi".data, 0⟩] : List Chunk).get ⟨k, hk'⟩).index,
            ([⟨"hi".data, 0⟩] : List Chunk).length⟩) ∧
      (∀ r ∈ ([⟨"hi".data, 2, ⟨"notes.txt", 0, 1⟩⟩] : List (StoredRow Nat)),
        r.metadata.source = "notes.txt" ∧
        r.metadata.total_chunks = ([⟨"hi".data, 0⟩] : List Chunk).length) ∧
      (∀ r1 ∈ ([⟨"hi".data, 2, ⟨"notes.txt", 0, 1⟩⟩] : List (StoredRow Nat)),
        ∀ r2 ∈ ([⟨"hi".data, 2, ⟨"notes.txt", 0, 1⟩⟩] : List (StoredRow Nat)),
        r1.metadata.source = r2.metadata.source →
        r1.metadata.total_chunks = r2.metadata.total_chunks)) :=
  ⟨by decide, by decide,
    c8_row_metadata (fun t => t.length) "notes.txt" "hi".data
      [⟨"hi".data, 0⟩] [⟨"hi".data, 2, ⟨"notes.txt", 0, 1⟩⟩] (by decide) (by decide)⟩

/-- One row as read by the documents listing handler
(`src/app/api/documents/route.ts` line 13–15: `select("metadata, created_at")`).
`source` is `metadata?.source` (`none` models a missing/non-string value);
`created_at` is the row timestamp, modelled by a `Nat` so timestamps
compare. -/
structure DocRow where
  source : Option String
  created_at : Nat
  deriving DecidableEq, Repr

/-- `DocumentSummary` from `src/app/api/documents/route.ts` lines 5–9. -/
structure DocumentSummary where
  source : String
  chunk_count : Nat
  created_at : Nat
  deriving DecidableEq, Repr

/-- The per-row update of the `summaries` record (lines 27–35): the first
row seen for a source creates the entry (count 0 then `+= 1`, keeping
that row's `created_at`); later rows only increment the count.  JS
objects keep string keys in insertion order, which the list order
models. -/
def bump : List DocumentSummary → String → Nat → List DocumentSummary
  | [], src, t => [⟨src, 1, t⟩]
  | s :: rest, src, t =>
    if s.source == src then ⟨s.source, s.chunk_count + 1, s.created_at⟩ :: rest
    else s :: bump rest src t

/-- The loop body of the `GET` handler (lines 23–36): rows whose
`metadata?.source` is missing or falsy (the empty string) are skipped. -/
def listStep (acc : List DocumentSummary) (row : DocRow) : List DocumentSummary :=
  match row.source with
  | none => acc
  | some src => if src == "" then acc else bump acc src row.created_at

/-- The `GET` handler of `src/app/api/documents/route.ts` (lines 11–44):
scan all rows, group by `metadata.source`, return `Object.values` in
insertion order. -/
def listSources (rows : List DocRow) : List DocumentSummary :=
  rows.foldl listStep []

theorem bump_find_same (acc : List DocumentSummary) (src : String) (t : Nat) :
    (bump acc src t).find? (fun s => s.source == src) =
      some (match acc.find? (fun s => s.source == src) with
            | some s0 => ⟨s0.source, s0.chunk_count + 1, s0.created_at⟩
            | none => ⟨src, 1, t⟩) := by
  induction acc with
  | nil => simp [bump, List.find?]
  | cons s rest ih =>
    by_cases h : s.source == src
    · simp [bump, h, List.find?]
    · simp [bump, h, List.find?, ih]

theorem bump_find_other (acc : List DocumentSummary) (src : String) (t : Nat)
    (src' : String) (h : src' ≠ src) :
    (bump acc src t).find? (fun s => s.source == src') =
      acc.find? (fun s => s.source == src') := by
  induction acc with
  | nil =>
    have hp : (src == src') = false := by
      simp
      exact fun hc => h hc.symm
    simp [bump, List.find?, hp]
  | cons s rest ih =>
    by_cases hs : s.source == src
    · have hseq : s.source = src := by
        exact beq_iff_eq.mp hs
      have hp : (s.source == src') = false := by
        simp [hseq]
        exact fun hc => h hc.symm
      simp [bump, hs, List.find?, hp]
    · by_cases hp : s.source == src'
      · simp [bump, hs, List.find?, hp]
      · simp [bump, hs, List.find?, hp, ih]

theorem foldl_listStep_find (src : String) (hsrc : src ≠ "") :
    ∀ (rows : List DocRow) (acc : List DocumentSummary),
      (rows.foldl listStep acc).find? (fun s => s.source == src) =
        match acc.find? (fun s => s.source == src) with
        | some s0 =>
          some ⟨s0.source,
            s0.chunk_count + (rows.filter (fun r => r.source == some src)).length,
            s0.created_at⟩
        | none =>
          (rows.filter (fun r => r.source == some src)).head?.map
            (fun r => ⟨src, (rows.filter (fun r => r.source == some src)).length,
              r.created_at⟩) := by
  intro rows
  induction rows with
  | nil =>
    intro acc
    rcases hfind : acc.find? (fun s => s.source == src) with _ | s0
    · simp [hfind]
    · rcases s0 with ⟨a, b, c⟩
      simp [hfind]
  | cons r rest ih =>
    intro acc
    rcases hr : r.source with _ | s'
    · have hstep : listStep acc r = acc := by
        simp [listStep, hr]
      have hpred : (r.source == some src) = false := by
        simp [hr]
      simp only [List.foldl_cons, hstep, List.filter_cons, hpred]
      exact ih acc
    · by_cases hemp : s' = ""
      · subst hemp
        have hstep : listStep acc r = acc := by
          simp [listStep, hr]
        have hpred : (r.source == some src) = false := by
          simp [hr]
          exact fun hc => hsrc hc.symm
        simp only [List.foldl_cons, hstep, List.filter_cons, hpred]
        exact ih acc
      · by_cases hss : s' = src
        · subst hss
          have hstep : listStep acc r = bump acc s' r.created_at := by
            simp [listStep, hr, hemp]
          have hpred : (r.source == some s') = true := by
            simp [hr]
          simp only [List.foldl_cons, hstep, List.filter_cons, hpred, if_true]
          rw [ih (bump acc s' r.created_at), bump_find_same]
          rcases hfind : acc.find? (fun s => s.source == s') with _ | s0
          · simp only [hfind, List.length_cons, List.head?_cons, Option.map_some]
            have harith : 1 + (rest.filter (fun r => r.source == some s')).length =
                (rest.filter (fun r => r.source == some s')).length + 1 := by omega
            rw [harith]
            simp
          · simp only [hfind, List.length_cons]
            have harith : s0.chunk_count + 1 + (rest.filter (fun r => r.source == some s')).length =
                s0.chunk_count + ((rest.filter (fun r => r.source == some s')).length + 1) := by
              omega
            rw [harith]
        · have hstep : listStep acc r = bump acc s' r.created_at := by
            simp [listStep, hr, hemp]
          have hpred : (r.source == some src) = false := by
            simp [hr]
            exact fun hc => hss hc
          simp only [List.foldl_cons, hstep, List.filter_cons, hpred]
          rw [ih (bump acc s' r.created_at),
            bump_find_other acc s' r.created_at src (fun hc => hss hc.symm)]
          simp

theorem bump_sources (acc : List DocumentSummary) (src : String) (t : Nat) :
    (bump acc src t).map (fun s => s.source) =
      if src ∈ acc.map (fun s => s.source) then acc.map (fun s => s.source)
      else acc.map (fun s => s.source) ++ [src] := by
  induction acc with
  | nil => simp [bump]
  | cons s rest ih =>
    by_cases h : s.source == src
    · have hseq : s.source = src := beq_iff_eq.mp h
      simp [bump, h, hseq]
    · have hneq : src ≠ s.source := by
        intro hc
        exact absurd (beq_iff_eq.mpr hc.symm) (by simpa using h)
      by_cases hmem : src ∈ rest.map (fun s => s.source)
      · simp [bump, h, ih, hmem, hneq]
      · simp [bump, h, ih, hmem, hneq]

theorem foldl_listStep_nodup :
    ∀ (rows : List DocRow) (acc : List DocumentSummary),
      ((acc.map (fun s => s.source)).Nodup) →
      (((rows.foldl listStep acc).map (fun s => s.source)).Nodup) := by
  intro rows
  induction rows with
  | nil => intro acc h; exact h
  | cons r rest ih =>
    intro acc h
    rw [List.foldl_cons]
    apply ih
    rcases hr : r.source with _ | s'
    · simpa [listStep, hr] using h
    · by_cases hemp : s' == ""
      · simpa [listStep, hr, hemp] using h
      · have hstep : listStep acc r = bump acc s' r.created_at := by
          simp [listStep, hr, hemp]
        rw [hstep, bump_sources]
        by_cases hmem : s' ∈ acc.map (fun s => s.source)
        · simpa [hmem] using h
        · rw [if_neg hmem, ← List.concat_eq_append]
          exact List.Nodup.concat hmem h

/-- The two rows of the C9 counterexample: the same source scanned with a
later timestamp first. -/
def c9rows : List DocRow := [⟨some "a.txt", 5⟩, ⟨some "a.txt", 3⟩]

/-- C9 counterexample: when the scan meets the rows of a source in
non-chronological order, the summary keeps the first-seen `created_at`
(5), which is not the earliest `created_at` among the rows (3), so the
claim's "earliest created_at" property fails on this input. -/
theorem c9_counterexample :
    ¬ (∀ s ∈ listSources c9rows, ∀ r ∈ c9rows, r.source = some s.source →
        s.created_at ≤ r.created_at) := by
  decide

/-- C9 (amended): `listSources` groups rows by `metadata.source`,
returning exactly one summary per source present (the summary sources are
pairwise distinct), whose `chunk_count` is the number of rows with that
source and whose `created_at` is the `created_at` of the first row with
that source in scan order (not necessarily the earliest). -/
theorem c9_listing_amended (rows : List DocRow) (src : String) (hsrc : src ≠ "") :
    (listSources rows).find? (fun s => s.source == src) =
      (rows.filter (fun r => r.source == some src)).head?.map
        (fun r => ⟨src, (rows.filter (fun r => r.source == some src)).length,
          r.created_at⟩) ∧
    ((listSources rows).map (fun s => s.source)).Nodup := by
  constructor
  · have h := foldl_listStep_find src hsrc rows []
    simpa [listSources, List.find?] using h
  · exact foldl_listStep_nodup rows [] (by simp)

/-- Hypothesis-discharging instance of the amended C9 theorem: two rows
of source "a.txt" (first seen at timestamp 5), one skipped row, one row
of another source. -/
theorem c9_listing_amended_witness :
    ("a.txt" : String) ≠ "" ∧
    ((listSources [⟨some "a.txt", 5⟩, ⟨none, 1⟩, ⟨some "a.txt", 3⟩, ⟨some "b.txt", 7⟩]).find?
        (fun s => s.source == "a.txt") =
      (([⟨some "a.txt", 5⟩, ⟨none, 1⟩, ⟨some "a.txt", 3⟩, ⟨some "b.txt", 7⟩] : List DocRow).filter
          (fun r => r.source == some "a.txt")).head?.map
        (fun r => ⟨"a.txt",
          (([⟨some "a.txt", 5⟩, ⟨none, 1⟩, ⟨some "a.txt", 3⟩, ⟨some "b.txt", 7⟩] : List DocRow).filter
            (fun r => r.source == some "a.txt")).length, r.created_at⟩) ∧
    ((listSources [⟨some "a.txt", 5⟩, ⟨none, 1⟩, ⟨some "a.txt", 3⟩, ⟨some "b.txt", 7⟩]).map
        (fun s => s.source)).Nodup) :=
  ⟨by decide,
    c9_listing_amended [⟨some "a.txt", 5⟩, ⟨none, 1⟩, ⟨some "a.txt", 3⟩, ⟨some "b.txt", 7⟩]
      "a.txt" (by decide)⟩
